import Mathlib

/-!
Verification of the spacenote mini-backend core (entity store, sequence
allocator, schema validator, record services) as a shallow embedding of
`src/spacenote/core`.  Durable MongoDB collections are modelled as Lean
lists (insertion order) or as finitely-represented maps; the atomic
`find_one_and_update` upsert-increment is modelled as a pure state update.
Asynchronous methods become pure functions from a state to a new state and
an `Except` result; a `dbOk : Bool` argument models whether a durable write
succeeds where a claim concerns storage failure.
-/

namespace Spacenote

/-- Modelled from the spec: the error taxonomy of `spacenote/errors.py`
(a module not present under `src/`): `NotFoundError`, `ValidationError`,
`AuthenticationError` are the recoverable classes of section 7; `storage`
stands for an unclassified durable-storage failure (connectivity or a
unique-index violation), which propagates unchanged. -/
inductive Err where
  | notFound (msg : String)
  | validationError (msg : String)
  | authenticationError (msg : String)
  | storage (msg : String)
deriving DecidableEq, Repr

/-- `FieldType` from `space/models.py`: available field types for space
schemas. -/
inductive FieldType where
  | string
  | select
  | tags
  | user
  | int
  | float
  | image
deriving DecidableEq, Repr

/-- `FieldOption` from `space/models.py` (configuration keys). -/
inductive FieldOption where
  | values
  | min
  | max
  | max_width
deriving DecidableEq, Repr

/-- `FieldOptionValueType = list[str] | int` from `space/models.py`. -/
inductive FieldOptionValue where
  | strings (l : List String)
  | num (n : Int)
deriving DecidableEq, Repr

/-- `FieldValueType = str | list[str] | int | float | None` from
`space/models.py`.  Python floats are IEEE 754 and not shallowly
embeddable; the `float` constructor records the accepted literal instead
of a numeric value (no claim inspects a float's numeric value). -/
inductive FieldValue where
  | str (s : String)
  | list (l : List String)
  | int (i : Int)
  | float (lit : String)
  | none
deriving DecidableEq, Repr

/-- `SpaceField` from `space/models.py`: one field definition of a space
schema. -/
structure SpaceField where
  id : String
  type : FieldType
  required : Bool := false
  options : List (FieldOption × FieldOptionValue) := []
  default : FieldValue := .none
deriving DecidableEq, Repr

/-- `Space` from `space/models.py` (the `_id : ObjectId` of `MongoModel`
is an internal technical key no modelled operation reads; it is omitted). -/
structure Space where
  slug : String
  title : String
  members : List String := []
  fields : List SpaceField := []
deriving DecidableEq, Repr

/-- `User` from `user/models.py` (`_id` omitted as for `Space`). -/
structure User where
  username : String
  token : String
deriving DecidableEq, Repr

/-- `Note` from `note/models.py`.  `fields` is the validated mapping from
field id to coerced value; a Python `dict` is modelled as a function to
`Option` (absent key = `none`).  `created_at` is an abstract timestamp. -/
structure Note where
  space_slug : String
  number : Int
  author_username : String
  created_at : Nat
  fields : String → Option FieldValue

/-- `Comment` from `comment/models.py`. -/
structure Comment where
  space_slug : String
  note_number : Int
  author_username : String
  number : Int
  content : String
  created_at : Nat

/-- Modelled from the spec: `PaginationResult` from
`spacenote/core/pagination.py` (a module not present under `src/`): the
listing contract `{items, total, limit, offset}` of section 4.4. -/
structure PaginationResult (α : Type) where
  items : List α
  total : Nat
  limit : Nat
  offset : Nat

/-- `dict.get(key)` on a Python `dict[str, str]`, the dict modelled as an
association list (keys unique in an actual dict; lookup takes the first
binding). -/
def dictGet (d : List (String × String)) (k : String) : Option String :=
  (d.find? (fun p => p.1 == k)).map Prod.snd

/-- Whitespace for Python's `str.strip()` (the ASCII fragment: space,
tab, newline, carriage return, vertical tab, form feed). -/
def isPyWS (c : Char) : Bool :=
  c = ' ' ∨ c = '\t' ∨ c = '\n' ∨ c = '\r' ∨ c = '\x0b' ∨ c = '\x0c'

/-- Python's `str.strip()` with no argument: drop whitespace from both
ends. -/
def pyStrip (s : String) : String :=
  String.mk ((((s.toList).dropWhile isPyWS).reverse.dropWhile isPyWS).reverse)

/-- Helper for `pySplitComma`: walk the characters, cutting at every
comma; `cur` holds the current segment reversed. -/
def splitCommaAux : List Char → List Char → List String
  | [], cur => [String.mk cur.reverse]
  | ',' :: cs, cur => String.mk cur.reverse :: splitCommaAux cs []
  | c :: cs, cur => splitCommaAux cs (c :: cur)

/-- Python's `raw.split(",")`: split on every comma, keeping empty
segments (so the empty string yields `[""]`). -/
def pySplitComma (s : String) : List String :=
  splitCommaAux s.toList []

/-- Value of an ASCII digit. -/
def digitVal (c : Char) : Nat := c.toNat - 48

/-- Digit tail of a Python integer literal: after the first digit, Python's
`int(str)` accepts further digits with single underscores standing between
two digits. -/
def digitsCore (acc : Nat) : List Char → Option Nat
  | [] => some acc
  | '_' :: c :: cs => if c.isDigit then digitsCore (10 * acc + digitVal c) cs else Option.none
  | ['_'] => Option.none
  | c :: cs => if c.isDigit then digitsCore (10 * acc + digitVal c) cs else Option.none

/-- A nonempty underscore-grouped digit string, as Python's `int(str)`
reads one (must start with a digit). -/
def pyParseDigits : List Char → Option Nat
  | [] => Option.none
  | c :: cs => if c.isDigit then digitsCore (digitVal c) cs else Option.none

/-- Python's `int(raw)` on a `str` argument: surrounding whitespace is
stripped, an optional sign precedes a nonempty base-10 digit string
(single underscores allowed between digits); anything else raises
`ValueError`, modelled as `none`. -/
def pyParseInt (s : String) : Option Int :=
  match (pyStrip s).toList with
  | '+' :: rest => (pyParseDigits rest).map (fun n => (n : Int))
  | '-' :: rest => (pyParseDigits rest).map (fun n => -(n : Int))
  | cs => (pyParseDigits cs).map (fun n => (n : Int))

/-- Consume the continuation of a digit group (previous character was a
digit): further digits, an underscore only when a digit follows it. -/
def dgAux : List Char → List Char
  | '_' :: c :: cs => if c.isDigit then dgAux cs else '_' :: c :: cs
  | c :: cs => if c.isDigit then dgAux cs else c :: cs
  | [] => []

/-- Consume a nonempty digit group (underscores between digits); `none`
when the input does not start with a digit. -/
def dg : List Char → Option (List Char)
  | c :: cs => if c.isDigit then some (dgAux cs) else Option.none
  | [] => Option.none

/-- Whether the whole input is one nonempty digit group. -/
def allDigits (r : List Char) : Bool :=
  match dg r with
  | some [] => true
  | _ => false

/-- Exponent part of a Python float literal: empty, or `e`/`E`, an optional
sign and a nonempty digit group closing the input. -/
def expOk : List Char → Bool
  | [] => true
  | c :: rest =>
    if c = 'e' ∨ c = 'E' then
      match rest with
      | '+' :: r => allDigits r
      | '-' :: r => allDigits r
      | r => allDigits r
    else false

/-- Mantissa followed by an optional exponent: digits, digits `.` digits,
digits `.`, or `.` digits, with at least one mantissa digit. -/
def mantExp (cs : List Char) : Bool :=
  match dg cs with
  | some rest =>
    match rest with
    | '.' :: r2 =>
      (match dg r2 with
       | some r3 => expOk r3
       | Option.none => expOk r2)
    | r2 => expOk r2
  | Option.none =>
    match cs with
    | '.' :: r2 =>
      (match dg r2 with
       | some r3 => expOk r3
       | Option.none => false)
    | _ => false

/-- Python's `float(raw)` acceptance on a `str` argument: surrounding
whitespace stripped, an optional sign, then case-insensitive
`inf`/`infinity`/`nan` or a decimal literal with optional fraction and
exponent (underscores between digits); `false` models `ValueError`. -/
def pyFloatAccepts (s : String) : Bool :=
  let t := (pyStrip s).toList
  let body := match t with
    | '+' :: r => r
    | '-' :: r => r
    | r => r
  let low := body.map Char.toLower
  if low = "inf".toList ∨ low = "infinity".toList ∨ low = "nan".toList then true
  else mantExp body

/-- The tag-list coercion of `NoteService.create_note`:
`[tag.strip() for tag in raw_value.split(",") if tag.strip()]` — split on
commas, trim each segment, drop segments empty after trimming, keep order,
no deduplication. -/
def coerceTags (raw : String) : List String :=
  (pySplitComma raw).filterMap (fun tag =>
    let t := pyStrip tag
    if t = "" then Option.none else some t)

/-- One iteration of the validation loop of `NoteService.create_note` for
a single field definition: required-missing check, default for an absent
optional field, else coercion by type (`int`, `float`, `tags`, all other
types pass the raw string through). -/
def stepField (fd : SpaceField) (raw : List (String × String)) : Except Err FieldValue :=
  match dictGet raw fd.id with
  | Option.none =>
    if fd.required then
      .error (.validationError ("Required field '" ++ fd.id ++ "' is missing"))
    else .ok fd.default
  | some rawValue =>
    match fd.type with
    | .int =>
      match pyParseInt rawValue with
      | some i => .ok (.int i)
      | Option.none =>
        .error (.validationError ("Field '" ++ fd.id ++ "' must be an integer, got '" ++ rawValue ++ "'"))
    | .float =>
      if pyFloatAccepts rawValue then .ok (.float rawValue)
      else
        .error (.validationError ("Field '" ++ fd.id ++ "' must be a float, got '" ++ rawValue ++ "'"))
    | .tags => .ok (.list (coerceTags rawValue))
    | _ => .ok (.str rawValue)

/-- The validation loop of `NoteService.create_note` over the schema in
order, accumulating `validated_fields` (a Python dict, modelled as a
function with overwrite-on-update semantics); the first failing field
aborts with its error. -/
def validateFieldsFrom (fields : List SpaceField) (raw : List (String × String))
    (acc : String → Option FieldValue) : Except Err (String → Option FieldValue) :=
  match fields with
  | [] => .ok acc
  | fd :: rest =>
    match stepField fd raw with
    | .error e => .error e
    | .ok v => validateFieldsFrom rest raw (fun k => if k = fd.id then some v else acc k)

/-- The whole field-validation phase of `NoteService.create_note`,
starting from the empty `validated_fields` dict. -/
def validateFields (fields : List SpaceField) (raw : List (String × String)) :
    Except Err (String → Option FieldValue) :=
  validateFieldsFrom fields raw (fun _ => Option.none)

/-- The two counter collections of `CounterService` (`note_counters`,
unique on `space_slug`; `comment_counters`, unique on
`(space_slug, note_number)`).  A collection with a unique key and an
integer `seq` is a finite map; an absent document reads as `seq = 0`,
matching the `$inc` upsert which creates the document with `seq = 1`. -/
structure CounterState where
  noteSeq : String → Int
  commentSeq : String → Int → Int

/-- `CounterService.get_next_note_number`: atomic
`find_one_and_update({"space_slug": slug}, {"$inc": {"seq": 1}},
upsert=True, return_document=AFTER)` — increments the scope's counter and
returns the post-increment value. -/
def get_next_note_number (c : CounterState) (space_slug : String) : Int × CounterState :=
  let next := c.noteSeq space_slug + 1
  (next, { c with noteSeq := fun s => if s = space_slug then next else c.noteSeq s })

/-- `CounterService.get_next_comment_number`: the same atomic
upsert-increment on the `(space_slug, note_number)` scope. -/
def get_next_comment_number (c : CounterState) (space_slug : String) (note_number : Int) :
    Int × CounterState :=
  let next := c.commentSeq space_slug note_number + 1
  (next,
   { c with commentSeq := fun s n =>
      if s = space_slug ∧ n = note_number then next else c.commentSeq s n })

/-- A sequence-allocator scope: a space slug for note numbering or a
`(space slug, note number)` pair for comment numbering. -/
inductive Scope where
  | note (space_slug : String)
  | comment (space_slug : String) (note_number : Int)
deriving DecidableEq, Repr

/-- Counter value currently stored for a scope. -/
def counterOf (c : CounterState) : Scope → Int
  | .note s => c.noteSeq s
  | .comment s n => c.commentSeq s n

/-- One allocation, dispatched to the scope's counter collection. -/
def allocScope (c : CounterState) : Scope → Int × CounterState
  | .note s => get_next_note_number c s
  | .comment s n => get_next_comment_number c s n

/-- Fresh counter collections (no documents: every scope reads 0). -/
def initCounters : CounterState := ⟨fun _ => 0, fun _ _ => 0⟩

/-- A sequence of allocations, one per scope in the trace, in order (two
concurrent allocations commit in some serial order at the storage layer;
a trace is that order).  Returns the values in order plus the final
counter state. -/
def runAllocs (c : CounterState) : List Scope → List Int × CounterState
  | [] => ([], c)
  | s :: rest =>
    ((allocScope c s).1 :: (runAllocs (allocScope c s).2 rest).1,
     (runAllocs (allocScope c s).2 rest).2)

/-- Occurrences of a scope in a trace. -/
def countOcc (s : Scope) : List Scope → Nat
  | [] => 0
  | t :: ts => (if t = s then 1 else 0) + countOcc s ts

/-- Value returned by the allocation at position `i` of a trace started on
fresh counters (0 when `i` is out of range). -/
def allocValueAt (tr : List Scope) (i : Nat) : Int :=
  ((runAllocs initCounters tr).1).getD i 0

/-- The application state the record services touch: the `SpaceService`
in-memory cache (`_spaces`, keyed by slug), the counter collections, and
the `notes` and `comments` collections as lists in insertion order. -/
structure AppState where
  spaces : String → Option Space
  counters : CounterState
  notes : List Note
  comments : List Comment

/-- `SpaceService.get_space`: cache lookup by slug, `NotFoundError` when
absent. -/
def get_space (spaces : String → Option Space) (slug : String) : Except Err Space :=
  match spaces slug with
  | Option.none => .error (.notFound ("Space '" ++ slug ++ "' not found"))
  | some sp => .ok sp

/-- `find_one({"space_slug": slug, "number": number})` on the `notes`
collection (at most one match thanks to the unique index). -/
def find_note (notes : List Note) (space_slug : String) (number : Int) : Option Note :=
  notes.find? (fun n => n.space_slug == space_slug && n.number == number)

/-- `NoteService.get_note`: durable lookup, `NotFoundError` when absent. -/
def get_note (notes : List Note) (space_slug : String) (number : Int) : Except Err Note :=
  match find_note notes space_slug number with
  | Option.none =>
    .error (.notFound ("Note not found: space=" ++ space_slug ++ ", number=" ++ toString number))
  | some n => .ok n

/-- `NoteService.create_note`: resolve the space from the cache, allocate
the next note number (a durable counter increment that the later steps do
not undo), then validate the raw fields against the space schema, then
insert the fully formed note.  `now` abstracts `datetime.now(UTC)`; the
final insert is modelled on its success path (no claim concerns its
failure). -/
def create_note (st : AppState) (space_slug author_username : String)
    (raw_fields : List (String × String)) (now : Nat) : AppState × Except Err Note :=
  match get_space st.spaces space_slug with
  | .error e => (st, .error e)
  | .ok space =>
    let alloc := get_next_note_number st.counters space_slug
    let st1 := { st with counters := alloc.2 }
    match validateFields space.fields raw_fields with
    | .error e => (st1, .error e)
    | .ok validated_fields =>
      let note : Note :=
        { space_slug := space_slug, number := alloc.1,
          author_username := author_username, created_at := now,
          fields := validated_fields }
      ({ st1 with notes := st1.notes ++ [note] }, .ok note)

/-- `CommentService.create_comment`: check that the referenced note exists
(durable lookup, `NotFoundError` otherwise), then allocate the next
comment number for the `(space_slug, note_number)` scope, then insert. -/
def create_comment (st : AppState) (space_slug : String) (note_number : Int)
    (author_username content : String) (now : Nat) : AppState × Except Err Comment :=
  match get_note st.notes space_slug note_number with
  | .error e => (st, .error e)
  | .ok _ =>
    let alloc := get_next_comment_number st.counters space_slug note_number
    let st1 := { st with counters := alloc.2 }
    let comment : Comment :=
      { space_slug := space_slug, note_number := note_number,
        author_username := author_username, number := alloc.1,
        content := content, created_at := now }
    ({ st1 with comments := st1.comments ++ [comment] }, .ok comment)

/-- Insert into a list sorted by `le` (the comparison the store's sort
uses), keeping existing order among `le`-ties. -/
def insertBy {α : Type} (le : α → α → Bool) (a : α) : List α → List α
  | [] => [a]
  | b :: bs => if le a b then a :: b :: bs else b :: insertBy le a bs

/-- Sort by `le`: the deterministic order `cursor.sort(...)` yields (the
sort keys below are unique per scope thanks to the unique indexes, so any
correct sort returns this order). -/
def sortBy {α : Type} (le : α → α → Bool) : List α → List α
  | [] => []
  | a :: rest => insertBy le a (sortBy le rest)

/-- `NoteService.list_notes`: filter the collection by space, count all
matches for `total`, sort by `number` descending, then `skip(offset)` and
`limit(limit)`. -/
def list_notes (st : AppState) (space_slug : String) (limit offset : Nat) :
    PaginationResult Note :=
  let docs := st.notes.filter (fun n => n.space_slug == space_slug)
  let total := docs.length
  let sorted := sortBy (fun a b => decide (b.number ≤ a.number)) docs
  { items := (sorted.drop offset).take limit, total := total, limit := limit, offset := offset }

/-- `CommentService.list_comments`: filter by `(space_slug, note_number)`,
count all matches for `total`, sort by `number` ascending, then skip and
limit. -/
def list_comments (st : AppState) (space_slug : String) (note_number : Int)
    (limit offset : Nat) : PaginationResult Comment :=
  let docs := st.comments.filter (fun c => c.space_slug == space_slug && c.note_number == note_number)
  let total := docs.length
  let sorted := sortBy (fun a b => decide (a.number ≤ b.number)) docs
  { items := (sorted.drop offset).take limit, total := total, limit := limit, offset := offset }

/-- `UserService` state: the `users` collection plus the two in-memory
indexes `_users` (by username) and `_users_by_token`. -/
structure UserState where
  dbUsers : List User
  users : String → Option User
  usersByToken : String → Option User

/-- Whether `insert_one` into `users` succeeds: the collection's unique
indexes on `username` and `token` reject a duplicate of either. -/
def dbInsertUserOk (db : List User) (u : User) : Bool :=
  db.all (fun v => v.username != u.username && v.token != u.token)

/-- `UserService.create_user`: reject a username already cached
(`ValidationError`); otherwise durable `insert_one` first (failing on a
duplicate key or, when `dbOk` is false, on a storage error), and only on
durable success update both cache indexes. -/
def create_user (st : UserState) (username token : String) (dbOk : Bool) :
    UserState × Except Err User :=
  if (st.users username).isSome then
    (st, .error (.validationError ("User '" ++ username ++ "' already exists")))
  else
    let user : User := ⟨username, token⟩
    if dbOk && dbInsertUserOk st.dbUsers user then
      ({ dbUsers := st.dbUsers ++ [user],
         users := fun k => if k = username then some user else st.users k,
         usersByToken := fun t => if t = token then some user else st.usersByToken t },
       .ok user)
    else
      (st, .error (.storage "user insert failed"))

/-- `delete_one({"username": username})`: remove the first matching
document. -/
def dbDeleteUser : List User → String → List User
  | [], _ => []
  | u :: rest, username =>
    if u.username = username then rest else u :: dbDeleteUser rest username

/-- `UserService.delete_user`: `NotFoundError` when the username is not
cached; otherwise durable delete first, and only on success remove the
user from both cache indexes. -/
def delete_user (st : UserState) (username : String) (dbOk : Bool) :
    UserState × Except Err Unit :=
  match st.users username with
  | Option.none => (st, .error (.notFound ("User '" ++ username ++ "' not found")))
  | some user =>
    if dbOk then
      ({ dbUsers := dbDeleteUser st.dbUsers username,
         users := fun k => if k = username then Option.none else st.users k,
         usersByToken := fun t => if t = user.token then Option.none else st.usersByToken t },
       .ok ())
    else (st, .error (.storage "user delete failed"))

/-- A Python dict comprehension `{key(u): u for u in db}` (later entries
overwrite earlier ones). -/
def indexBy (key : User → String) (db : List User) : String → Option User :=
  db.foldl (fun m u => fun k => if k = key u then some u else m k) (fun _ => Option.none)

/-- `UserService.update_all_users_cache`: rebuild both cache indexes from
a full scan of the collection; a storage failure during the scan leaves
the old caches in place. -/
def update_all_users_cache (st : UserState) (dbOk : Bool) : UserState × Except Err Unit :=
  if dbOk then
    ({ st with
        users := indexBy (fun u => u.username) st.dbUsers,
        usersByToken := indexBy (fun u => u.token) st.dbUsers }, .ok ())
  else (st, .error (.storage "user find failed"))

/-- A fresh `UserService` over an empty deployment: empty collection,
empty caches. -/
def initUserState : UserState := ⟨[], fun _ => Option.none, fun _ => Option.none⟩

/-- States of the user service reachable by any sequence of
`create_user`, `delete_user` and `update_all_users_cache` calls (each with
any arguments and any durable success/failure) from a fresh service. -/
inductive ReachableUser : UserState → Prop
  | init : ReachableUser initUserState
  | create (st : UserState) (username token : String) (dbOk : Bool) :
      ReachableUser st → ReachableUser (create_user st username token dbOk).1
  | delete (st : UserState) (username : String) (dbOk : Bool) :
      ReachableUser st → ReachableUser (delete_user st username dbOk).1
  | reload (st : UserState) (dbOk : Bool) :
      ReachableUser st → ReachableUser (update_all_users_cache st dbOk).1

/-- `SpaceService` state: the `spaces` collection and the `_spaces` cache
(by slug). -/
structure SpaceState where
  dbSpaces : List Space
  spaces : String → Option Space

/-- `UserService.get_user`: cache lookup by username, `NotFoundError`
when absent. -/
def get_user (users : String → Option User) (username : String) : Except Err User :=
  match users username with
  | Option.none => .error (.notFound ("User '" ++ username ++ "' not found"))
  | some u => .ok u

/-- `update_one({"slug": slug}, {"$set": {"members": members}})`: set the
members of the first matching document. -/
def dbUpdateSpaceMembers : List Space → String → List String → List Space
  | [], _, _ => []
  | sp :: rest, slug, members =>
    if sp.slug = slug then { sp with members := members } :: rest
    else sp :: dbUpdateSpaceMembers rest slug members

/-- `SpaceService.add_member`: check the slug is cached and the username
exists (`NotFoundError` otherwise) and the user is not already a member
(`ValidationError`); then `space.members.append(username)` mutates the
cached `Space` object in place — the cache holds the grown list from this
point on — and only afterwards is `update_one` attempted against durable
storage; on a durable failure the error propagates with the cache already
mutated. -/
def add_member (st : SpaceState) (users : String → Option User) (slug username : String)
    (dbOk : Bool) : SpaceState × Except Err Space :=
  match st.spaces slug with
  | Option.none => (st, .error (.notFound ("Space '" ++ slug ++ "' not found")))
  | some space =>
    match get_user users username with
    | .error e => (st, .error e)
    | .ok _ =>
      if username ∈ space.members then
        (st, .error (.validationError
          ("User '" ++ username ++ "' is already a member of space '" ++ slug ++ "'")))
      else
        let space' := { space with members := space.members ++ [username] }
        let st1 := { st with spaces := fun k => if k = slug then some space' else st.spaces k }
        if dbOk then
          ({ st1 with dbSpaces := dbUpdateSpaceMembers st1.dbSpaces slug space'.members },
           .ok space')
        else
          (st1, .error (.storage "space update failed"))

/-! ## Sequence allocator lemmas (C1) -/

lemma allocScope_val (c : CounterState) (a : Scope) :
    (allocScope c a).1 = counterOf c a + 1 := by
  cases a <;> rfl

lemma allocScope_counterOf (c : CounterState) (a t : Scope) :
    counterOf (allocScope c a).2 t = counterOf c t + (if a = t then 1 else 0) := by
  cases a with
  | note slug =>
    cases t with
    | note t' =>
      simp only [allocScope, get_next_note_number, counterOf, Scope.note.injEq]
      by_cases h : t' = slug
      · subst h; simp
      · rw [if_neg h, if_neg (fun hh => h hh.symm), add_zero]
    | comment ts tn =>
      simp [allocScope, get_next_note_number, counterOf]
  | comment slug nn =>
    cases t with
    | note t' =>
      simp [allocScope, get_next_comment_number, counterOf]
    | comment ts tn =>
      simp only [allocScope, get_next_comment_number, counterOf, Scope.comment.injEq]
      by_cases h : ts = slug ∧ tn = nn
      · obtain ⟨h1, h2⟩ := h; subst h1; subst h2; simp
      · rw [if_neg h, if_neg (fun hh => h ⟨hh.1.symm, hh.2.symm⟩), add_zero]

lemma runAllocs_counterOf (tr : List Scope) (c : CounterState) (s : Scope) :
    counterOf (runAllocs c tr).2 s = counterOf c s + countOcc s tr := by
  induction tr generalizing c with
  | nil => simp [runAllocs, countOcc]
  | cons a rest ih =>
    simp only [runAllocs, countOcc]
    rw [ih, allocScope_counterOf]
    split_ifs <;> push_cast <;> ring

lemma runAllocs_length (tr : List Scope) (c : CounterState) :
    ((runAllocs c tr).1).length = tr.length := by
  induction tr generalizing c with
  | nil => rfl
  | cons a rest ih => simp [runAllocs, ih]

lemma runAllocs_append (c : CounterState) (l1 l2 : List Scope) :
    runAllocs c (l1 ++ l2)
      = ((runAllocs c l1).1 ++ (runAllocs (runAllocs c l1).2 l2).1,
         (runAllocs (runAllocs c l1).2 l2).2) := by
  induction l1 generalizing c with
  | nil => simp [runAllocs]
  | cons a rest ih => simp [runAllocs, ih]

lemma getD_append_length {α : Type} (l1 l2 : List α) (d : α) :
    (l1 ++ l2).getD l1.length d = l2.getD 0 d := by
  induction l1 with
  | nil => rfl
  | cons a rest ih => simpa [List.getD_cons_succ] using ih

lemma countOcc_append (s : Scope) (l1 l2 : List Scope) :
    countOcc s (l1 ++ l2) = countOcc s l1 + countOcc s l2 := by
  induction l1 with
  | nil => simp [countOcc]
  | cons a rest ih => simp [countOcc, ih]; omega

lemma countOcc_eq_zero (s : Scope) (l : List Scope) (h : s ∉ l) : countOcc s l = 0 := by
  induction l with
  | nil => rfl
  | cons a rest ih =>
    simp only [List.mem_cons, not_or] at h
    simp only [countOcc]
    rw [if_neg (fun hh => h.1 hh.symm), ih h.2]

lemma counterOf_init (s : Scope) : counterOf initCounters s = 0 := by
  cases s <;> rfl

lemma allocValue_master (c : CounterState) (t1 : List Scope) (s : Scope) (t2 : List Scope) :
    ((runAllocs c (t1 ++ s :: t2)).1).getD t1.length 0
      = counterOf c s + countOcc s t1 + 1 := by
  rw [runAllocs_append]
  have hlen : ((runAllocs c t1).1).length = t1.length := runAllocs_length ..
  rw [← hlen, getD_append_length]
  simp only [runAllocs, List.getD_cons_zero]
  rw [allocScope_val, runAllocs_counterOf]

lemma allocValueAt_eq (t1 : List Scope) (s : Scope) (t2 : List Scope) :
    allocValueAt (t1 ++ s :: t2) t1.length = countOcc s t1 + 1 := by
  unfold allocValueAt
  rw [allocValue_master, counterOf_init]
  omega

/-- C1: for every scope (a space slug for notes, or a (space slug, note
number) pair for comments), repeated allocations return a strictly
increasing sequence starting at 1: an allocation for a scope returns one
more than the number of earlier allocations for that same scope
(independence across distinct scopes), so the first allocation for a
previously-unseen scope returns 1, an allocation with no intervening
allocation for the same scope returns exactly one more than the previous
one, and of two allocations for the same scope the later always returns
the strictly larger value (never the same). -/
theorem spec_C1_sequence_allocator :
    (∀ (t1 : List Scope) (s : Scope) (t2 : List Scope),
        allocValueAt (t1 ++ s :: t2) t1.length = countOcc s t1 + 1)
    ∧ (∀ (t1 : List Scope) (s : Scope) (t2 : List Scope), s ∉ t1 →
        allocValueAt (t1 ++ s :: t2) t1.length = 1)
    ∧ (∀ (t1 t2 t3 : List Scope) (s : Scope), s ∉ t2 →
        allocValueAt (t1 ++ s :: (t2 ++ s :: t3)) (t1.length + 1 + t2.length)
          = allocValueAt (t1 ++ s :: (t2 ++ s :: t3)) t1.length + 1)
    ∧ (∀ (t1 t2 t3 : List Scope) (s : Scope),
        allocValueAt (t1 ++ s :: (t2 ++ s :: t3)) t1.length
          < allocValueAt (t1 ++ s :: (t2 ++ s :: t3)) (t1.length + 1 + t2.length)) := by
  have hfirst : ∀ (t1 : List Scope) (s : Scope) (t2 t3 : List Scope),
      allocValueAt (t1 ++ s :: (t2 ++ s :: t3)) t1.length = countOcc s t1 + 1 :=
    fun t1 s t2 t3 => allocValueAt_eq t1 s (t2 ++ s :: t3)
  have hsecond : ∀ (t1 t2 t3 : List Scope) (s : Scope),
      allocValueAt (t1 ++ s :: (t2 ++ s :: t3)) (t1.length + 1 + t2.length)
        = (countOcc s t1 + 1 + countOcc s t2) + 1 := by
    intro t1 t2 t3 s
    have hm := allocValueAt_eq (t1 ++ s :: t2) s t3
    have hl : (t1 ++ s :: t2) ++ s :: t3 = t1 ++ s :: (t2 ++ s :: t3) := by simp
    have hi : (t1 ++ s :: t2).length = t1.length + 1 + t2.length := by
      rw [List.length_append, List.length_cons]; omega
    rw [hl, hi] at hm
    rw [hm, countOcc_append]
    simp [countOcc]
    omega
  refine ⟨allocValueAt_eq, ?_, ?_, ?_⟩
  · intro t1 s t2 h
    rw [allocValueAt_eq, countOcc_eq_zero s t1 h]
    omega
  · intro t1 t2 t3 s h
    rw [hsecond, hfirst, countOcc_eq_zero s t2 h]
    omega
  · intro t1 t2 t3 s
    rw [hsecond, hfirst]
    omega

/-- Witness for C1: a concrete trace interleaving the note scope `"a"` and
the comment scope `("a", 1)`: the first allocation for `"a"` returns 1,
the next one 2, strictly larger. -/
theorem spec_C1_witness :
    allocValueAt [Scope.note "a", Scope.comment "a" 1, Scope.note "a"] 0 = 1
    ∧ allocValueAt [Scope.note "a", Scope.comment "a" 1, Scope.note "a"] 2
        = allocValueAt [Scope.note "a", Scope.comment "a" 1, Scope.note "a"] 0 + 1
    ∧ allocValueAt [Scope.note "a", Scope.comment "a" 1, Scope.note "a"] 0
        < allocValueAt [Scope.note "a", Scope.comment "a" 1, Scope.note "a"] 2 := by
  refine ⟨?_, ?_, ?_⟩
  · exact spec_C1_sequence_allocator.2.1 [] (Scope.note "a")
      [Scope.comment "a" 1, Scope.note "a"] (by simp)
  · exact spec_C1_sequence_allocator.2.2.1 [] [Scope.comment "a" 1] [] (Scope.note "a")
      (by simp)
  · exact spec_C1_sequence_allocator.2.2.2 [] [Scope.comment "a" 1] [] (Scope.note "a")

/-! ## Note creation: allocation vs. validation order (C2) -/

/-- A space whose schema has one required integer field `priority`. -/
def prioritySpace : Space :=
  { slug := "proj", title := "Project",
    fields := [{ id := "priority", type := .int, required := true }] }

/-- An application state caching `prioritySpace`, with fresh counters and
empty collections. -/
def priorityState : AppState :=
  { spaces := fun k => if k = "proj" then some prioritySpace else Option.none,
    counters := initCounters, notes := [], comments := [] }

/-- C2 counterexample: creating a note in `prioritySpace` with an empty
raw input fails with the required-field validation error, yet the space's
note counter is NOT left unchanged — it was already incremented (0 to 1)
before validation ran, because `create_note` allocates the number first. -/
theorem spec_C2_counterexample :
    (create_note priorityState "proj" "admin" [] 0).2
        = Except.error (Err.validationError "Required field 'priority' is missing")
    ∧ ¬ ((create_note priorityState "proj" "admin" [] 0).1.counters.noteSeq "proj"
          = priorityState.counters.noteSeq "proj") := by
  constructor
  · rfl
  · decide

/-- C2 as amended: in `NoteService.create_note` the sequence number is
allocated BEFORE field validation; consequently a create-note call that
fails with a validation error (required field missing, or an unparsable
integer/float) still consumes a number: the space's note counter is
incremented by exactly one, counters of other spaces are untouched, and
no note is inserted — the allocated number is a permanent gap. -/
theorem spec_C2_validation_failure_consumes_number
    (st : AppState) (slug author : String) (raw : List (String × String)) (now : Nat)
    (space : Space) (e : Err)
    (hsp : st.spaces slug = some space)
    (hval : validateFields space.fields raw = .error e) :
    (create_note st slug author raw now).2 = .error e
    ∧ (create_note st slug author raw now).1.counters.noteSeq slug
        = st.counters.noteSeq slug + 1
    ∧ (∀ s', s' ≠ slug →
        (create_note st slug author raw now).1.counters.noteSeq s'
          = st.counters.noteSeq s')
    ∧ (create_note st slug author raw now).1.notes = st.notes := by
  unfold create_note get_space
  rw [hsp]
  simp only [hval, get_next_note_number]
  refine ⟨by trivial, by simp, ?_, by trivial⟩
  intro s' hs'
  simp [if_neg hs']

/-- Witness for C2's amended theorem at the concrete counterexample
state. -/
theorem spec_C2_witness :
    (create_note priorityState "proj" "admin" [] 0).2
        = .error (Err.validationError "Required field 'priority' is missing")
    ∧ (create_note priorityState "proj" "admin" [] 0).1.counters.noteSeq "proj"
        = priorityState.counters.noteSeq "proj" + 1
    ∧ (create_note priorityState "proj" "admin" [] 0).1.notes = priorityState.notes := by
  have h := spec_C2_validation_failure_consumes_number priorityState "proj" "admin" [] 0
    prioritySpace (Err.validationError "Required field 'priority' is missing") rfl rfl
  exact ⟨h.1, h.2.1, h.2.2.2⟩

/-! ## Cache state under durable-storage failure (C3) -/

/-- A user present in the user cache for the `add_member` scenario. -/
def alice : User := ⟨"alice", "tok-alice"⟩

/-- A user cache containing only `alice`. -/
def aliceCache : String → Option User :=
  fun k => if k = "alice" then some alice else Option.none

/-- A space with no members yet. -/
def emptySpace : Space := { slug := "proj", title := "Project" }

/-- A space service state caching `emptySpace`, in sync with storage. -/
def emptySpaceState : SpaceState :=
  { dbSpaces := [emptySpace],
    spaces := fun k => if k = "proj" then some emptySpace else Option.none }

/-- C3 counterexample: when the durable `update_one` of `add_member`
fails, the error propagates, but the cached space is NOT in its pre-call
state: its members list already contains the new username, because
`space.members.append(username)` mutated the cached object before the
durable write was attempted. -/
theorem spec_C3_counterexample :
    (add_member emptySpaceState aliceCache "proj" "alice" false).2
        = Except.error (Err.storage "space update failed")
    ∧ ((add_member emptySpaceState aliceCache "proj" "alice" false).1.spaces "proj")
        = some { emptySpace with members := ["alice"] } := by
  constructor
  · rfl
  · rfl

/-- C3 as amended: for entity insert (`create_user`) and entity remove
(`delete_user`) the durable write is attempted strictly before the
in-memory update, so on a durable failure the error propagates and the
whole cache state is exactly its pre-call state; but for the
read-modify-write `add_member` the cached `Space` object is mutated in
place before the durable write, so after a durable failure the cached
space's members list DOES contain the new username (while durable storage
is unchanged). -/
theorem spec_C3_cache_on_durable_failure :
    (∀ (st : UserState) (username token : String),
        st.users username = Option.none →
        (create_user st username token false).1 = st
        ∧ (create_user st username token false).2 = .error (.storage "user insert failed"))
    ∧ (∀ (st : UserState) (username : String) (u : User),
        st.users username = some u →
        (delete_user st username false).1 = st
        ∧ (delete_user st username false).2 = .error (.storage "user delete failed"))
    ∧ (∀ (st : SpaceState) (users : String → Option User) (slug username : String)
          (space : Space) (u : User),
        st.spaces slug = some space → users username = some u →
        username ∉ space.members →
        (add_member st users slug username false).2 = .error (.storage "space update failed")
        ∧ (add_member st users slug username false).1.dbSpaces = st.dbSpaces
        ∧ (add_member st users slug username false).1.spaces slug
            = some { space with members := space.members ++ [username] }) := by
  refine ⟨?_, ?_, ?_⟩
  · intro st username token h
    unfold create_user
    rw [h]
    simp
  · intro st username u h
    unfold delete_user
    rw [h]
    simp
  · intro st users slug username space u hsp hu hm
    unfold add_member get_user
    rw [hsp, hu]
    simp [hm]

/-- Witness for C3's amended theorem: a fresh user service under a failing
insert keeps its caches empty; `add_member` under a failing update leaves
the grown members list in the cache. -/
theorem spec_C3_witness :
    (create_user initUserState "bob" "tok-bob" false).1 = initUserState
    ∧ (delete_user ((create_user initUserState "bob" "tok-bob" true).1) "bob" false).1
        = (create_user initUserState "bob" "tok-bob" true).1
    ∧ (add_member emptySpaceState aliceCache "proj" "alice" false).1.spaces "proj"
        = some { emptySpace with members := emptySpace.members ++ ["alice"] } := by
  refine ⟨?_, ?_, ?_⟩
  · exact (spec_C3_cache_on_durable_failure.1 initUserState "bob" "tok-bob" rfl).1
  · exact (spec_C3_cache_on_durable_failure.2.1
      ((create_user initUserState "bob" "tok-bob" true).1) "bob" ⟨"bob", "tok-bob"⟩ rfl).1
  · exact (spec_C3_cache_on_durable_failure.2.2 emptySpaceState aliceCache "proj" "alice"
      emptySpace alice rfl rfl (by simp [emptySpace])).2.2

/-! ## Schema validation lemmas (C4, C6, C10) -/

/-- Whether the validation step for one field succeeds. -/
def stepOk (fd : SpaceField) (raw : List (String × String)) : Bool :=
  match stepField fd raw with
  | .ok _ => true
  | .error _ => false

lemma stepField_error_validation (fd : SpaceField) (raw : List (String × String)) (e : Err)
    (h : stepField fd raw = .error e) : ∃ m, e = Err.validationError m := by
  unfold stepField at h
  split at h
  · split at h
    · cases h; exact ⟨_, rfl⟩
    · cases h
  · split at h
    · split at h
      · cases h
      · cases h; exact ⟨_, rfl⟩
    · split at h
      · cases h
      · cases h; exact ⟨_, rfl⟩
    · cases h
    · cases h

lemma validateFieldsFrom_append (l1 l2 : List SpaceField) (raw : List (String × String))
    (acc : String → Option FieldValue) :
    validateFieldsFrom (l1 ++ l2) raw acc
      = match validateFieldsFrom l1 raw acc with
        | .error e => .error e
        | .ok acc' => validateFieldsFrom l2 raw acc' := by
  induction l1 generalizing acc with
  | nil => simp [validateFieldsFrom]
  | cons fd rest ih =>
    simp only [List.cons_append, validateFieldsFrom]
    cases hstep : stepField fd raw with
    | error e => simp
    | ok v => simp [ih]

lemma validateFieldsFrom_ok (l : List SpaceField) (raw : List (String × String))
    (h : ∀ g ∈ l, stepOk g raw = true) (acc : String → Option FieldValue) :
    ∃ acc', validateFieldsFrom l raw acc = .ok acc' := by
  induction l generalizing acc with
  | nil => exact ⟨acc, rfl⟩
  | cons fd rest ih =>
    have hfd := h fd (List.mem_cons_self ..)
    unfold stepOk at hfd
    simp only [validateFieldsFrom]
    cases hstep : stepField fd raw with
    | error e => rw [hstep] at hfd; simp at hfd
    | ok v =>
      simp only [hstep]
      exact ih (fun g hg => h g (List.mem_cons_of_mem _ hg)) _

lemma validateFieldsFrom_error_validation (l : List SpaceField) (raw : List (String × String))
    (acc : String → Option FieldValue) (e : Err)
    (h : validateFieldsFrom l raw acc = .error e) : ∃ m, e = Err.validationError m := by
  induction l generalizing acc with
  | nil => simp [validateFieldsFrom] at h
  | cons fd rest ih =>
    simp only [validateFieldsFrom] at h
    cases hstep : stepField fd raw with
    | error e' =>
      rw [hstep] at h
      cases h
      exact stepField_error_validation fd raw _ hstep
    | ok v =>
      rw [hstep] at h
      exact ih _ h

lemma stepField_required_missing (fd : SpaceField) (raw : List (String × String))
    (habs : dictGet raw fd.id = Option.none) (hreq : fd.required = true) :
    stepField fd raw
      = .error (.validationError ("Required field '" ++ fd.id ++ "' is missing")) := by
  simp [stepField, habs, hreq]

lemma stepField_optional_missing (fd : SpaceField) (raw : List (String × String))
    (habs : dictGet raw fd.id = Option.none) (hreq : fd.required = false) :
    stepField fd raw = .ok fd.default := by
  simp [stepField, habs, hreq]

lemma validateFieldsFrom_preserve (l : List SpaceField) (raw : List (String × String))
    (k : String) (h : ∀ g ∈ l, g.id ≠ k) (acc : String → Option FieldValue)
    (res : String → Option FieldValue) (hok : validateFieldsFrom l raw acc = .ok res) :
    res k = acc k := by
  induction l generalizing acc with
  | nil => cases hok; rfl
  | cons fd rest ih =>
    simp only [validateFieldsFrom] at hok
    cases hstep : stepField fd raw with
    | error e => rw [hstep] at hok; cases hok
    | ok v =>
      rw [hstep] at hok
      have hres := ih (fun g hg => h g (List.mem_cons_of_mem _ hg)) _ hok
      rw [hres, if_neg (fun hh => (h fd (List.mem_cons_self ..)) hh.symm)]

/-- C4: for every space schema and raw input, a required field absent from
the raw input makes validation fail with a validation error — and when
the fields before it validate, with exactly the error naming that field
id; an optional field absent from the raw input is bound to its
configured default in the result (no later field redefining the id). -/
theorem spec_C4_required_and_default
    (pre post : List SpaceField) (f : SpaceField) (raw : List (String × String))
    (habs : dictGet raw f.id = Option.none) :
    (f.required = true →
       ∃ m, validateFields (pre ++ f :: post) raw = .error (.validationError m))
    ∧ (f.required = true → (∀ g ∈ pre, stepOk g raw = true) →
       validateFields (pre ++ f :: post) raw
         = .error (.validationError ("Required field '" ++ f.id ++ "' is missing")))
    ∧ (f.required = false → (∀ g ∈ post, g.id ≠ f.id) →
       ∀ res, validateFields (pre ++ f :: post) raw = .ok res →
         res f.id = some f.default) := by
  refine ⟨?_, ?_, ?_⟩
  · intro hreq
    unfold validateFields
    rw [validateFieldsFrom_append]
    cases hpre : validateFieldsFrom pre raw (fun _ => Option.none) with
    | error e =>
      obtain ⟨m, hm⟩ := validateFieldsFrom_error_validation _ _ _ _ hpre
      subst hm
      exact ⟨m, rfl⟩
    | ok acc' =>
      simp only [validateFieldsFrom]
      rw [stepField_required_missing f raw habs hreq]
      exact ⟨_, rfl⟩
  · intro hreq hpre
    unfold validateFields
    rw [validateFieldsFrom_append]
    obtain ⟨acc', hacc⟩ := validateFieldsFrom_ok pre raw hpre (fun _ => Option.none)
    simp only [hacc, validateFieldsFrom]
    rw [stepField_required_missing f raw habs hreq]
  · intro hreq hpost res hok
    unfold validateFields at hok
    rw [validateFieldsFrom_append] at hok
    cases hpre : validateFieldsFrom pre raw (fun _ => Option.none) with
    | error e => rw [hpre] at hok; simp at hok
    | ok acc' =>
      rw [hpre] at hok
      simp only [validateFieldsFrom] at hok
      rw [stepField_optional_missing f raw habs hreq] at hok
      have hres := validateFieldsFrom_preserve post raw f.id hpost _ res hok
      rw [hres]
      simp

/-- A required integer field, for the C4 witness. -/
def c4Req : SpaceField := { id := "priority", type := .int, required := true }

/-- An optional string field with default `"d"`, for the C4 witness. -/
def c4Opt : SpaceField := { id := "opt", type := .string, required := false, default := .str "d" }

/-- Witness for C4: omitting the required field `priority` fails naming
it; omitting the optional field `opt` binds it to its default. -/
theorem spec_C4_witness :
    validateFields [c4Req] []
        = .error (.validationError "Required field 'priority' is missing")
    ∧ (validateFields [c4Opt] []).map (fun res => res "opt")
        = Except.ok (some (FieldValue.str "d")) := by
  constructor
  · exact (spec_C4_required_and_default [] [] c4Req [] rfl).2.1 rfl (by simp)
  · have h := (spec_C4_required_and_default [] [] c4Opt [] rfl).2.2 rfl (by simp)
    have hok : validateFields [c4Opt] []
        = .ok (fun k => if k = "opt" then some (FieldValue.str "d") else Option.none) := rfl
    rw [hok]
    simp only [Except.map]
    exact congrArg Except.ok (h _ hok)

/-! ## Tag-list coercion (C5) -/

lemma dropWhile_eq_self_of_prefix {p : Char → Bool} {l m : List Char}
    (hl : l.dropWhile p = l) (hpre : m <+: l) : m.dropWhile p = m := by
  rw [List.dropWhile_eq_self_iff] at hl ⊢
  intro hm
  obtain ⟨t, ht⟩ := hpre
  subst ht
  have hlen : 0 < (m ++ t).length := by simp; omega
  have hfirst := hl hlen
  intro hp
  apply hfirst
  have hg : (m ++ t).get ⟨0, hlen⟩ = m.get ⟨0, hm⟩ := by
    simp only [List.get_eq_getElem]
    exact List.getElem_append_left hm
  rw [hg]
  exact hp

lemma pyStrip_eq (s : String) :
    pyStrip s = String.mk ((s.toList.dropWhile isPyWS).rdropWhile isPyWS) := rfl

lemma pyStrip_idem (s : String) : pyStrip (pyStrip s) = pyStrip s := by
  show String.mk (((pyStrip s).toList.dropWhile isPyWS).rdropWhile isPyWS) = pyStrip s
  have hlist : (pyStrip s).toList = (s.toList.dropWhile isPyWS).rdropWhile isPyWS := rfl
  rw [hlist, pyStrip_eq]
  have h1 : ((s.toList.dropWhile isPyWS).rdropWhile isPyWS).dropWhile isPyWS
      = (s.toList.dropWhile isPyWS).rdropWhile isPyWS :=
    dropWhile_eq_self_of_prefix (List.dropWhile_idempotent ..) (List.rdropWhile_prefix ..)
  rw [h1, List.rdropWhile_idempotent]

/-- A space with one tag-list field `labels`, for the C5 round trip. -/
def tagSpace : Space :=
  { slug := "proj", title := "Project", fields := [{ id := "labels", type := .tags }] }

/-- An application state caching `tagSpace`. -/
def tagState : AppState :=
  { spaces := fun k => if k = "proj" then some tagSpace else Option.none,
    counters := initCounters, notes := [], comments := [] }

/-- C5: a present tag-list raw value is stored as its comma-split,
per-segment-trimmed list with empty segments dropped, order preserved and
duplicates kept: every stored tag is trimmed and nonempty, the raw input
`"a, b,  b"` coerces to `["a","b","b"]` (the duplicate survives, order
kept), and a note created with that raw input stores exactly that list. -/
theorem spec_C5_tag_list_coercion :
    (∀ (fd : SpaceField) (raw : List (String × String)) (v : String),
        fd.type = FieldType.tags → dictGet raw fd.id = some v →
        stepField fd raw = .ok (FieldValue.list (coerceTags v)))
    ∧ coerceTags "a, b,  b" = ["a", "b", "b"]
    ∧ (∀ (s t : String), t ∈ coerceTags s → pyStrip t = t ∧ t ≠ "")
    ∧ (match (create_note tagState "proj" "admin" [("labels", "a, b,  b")] 0).2 with
       | .ok n => n.fields "labels"
       | .error _ => Option.none) = some (FieldValue.list ["a", "b", "b"]) := by
  refine ⟨?_, by decide, ?_, by decide⟩
  · intro fd raw v hty hget
    simp [stepField, hget, hty]
  · intro s t ht
    unfold coerceTags at ht
    obtain ⟨seg, hseg, hf⟩ := List.mem_filterMap.mp ht
    by_cases h : pyStrip seg = ""
    · simp [h] at hf
    · simp only [if_neg h] at hf
      cases hf
      exact ⟨pyStrip_idem seg, h⟩

/-- Witness for C5: the tag-list field `labels` with raw value
`"a, b,  b"` is stored as its coercion, which is `["a","b","b"]`. -/
theorem spec_C5_witness :
    stepField { id := "labels", type := .tags } [("labels", "a, b,  b")]
      = .ok (FieldValue.list (coerceTags "a, b,  b"))
    ∧ coerceTags "a, b,  b" = ["a", "b", "b"] := by
  constructor
  · exact spec_C5_tag_list_coercion.1 _ _ "a, b,  b" rfl rfl
  · exact spec_C5_tag_list_coercion.2.1

/-! ## Schema-is-authoritative (C6) -/

lemma create_note_error_result (st : AppState) (slug author : String)
    (raw : List (String × String)) (now : Nat) (space : Space) (e : Err)
    (hsp : st.spaces slug = some space)
    (hval : validateFields space.fields raw = .error e) :
    (create_note st slug author raw now).2 = .error e := by
  unfold create_note get_space
  rw [hsp]
  simp [hval]

lemma create_note_ok_result (st : AppState) (slug author : String)
    (raw : List (String × String)) (now : Nat) (space : Space)
    (vf : String → Option FieldValue)
    (hsp : st.spaces slug = some space)
    (hval : validateFields space.fields raw = .ok vf) :
    (create_note st slug author raw now).2
      = .ok { space_slug := slug, number := st.counters.noteSeq slug + 1,
              author_username := author, created_at := now, fields := vf } := by
  unfold create_note get_space
  rw [hsp]
  simp [hval, get_next_note_number]

lemma validateFieldsFrom_keys (l : List SpaceField) (raw : List (String × String))
    (acc : String → Option FieldValue) (res : String → Option FieldValue)
    (hok : validateFieldsFrom l raw acc = .ok res) (k : String)
    (hk : (res k).isSome = true) :
    k ∈ l.map SpaceField.id ∨ (acc k).isSome = true := by
  induction l generalizing acc with
  | nil => cases hok; exact Or.inr hk
  | cons fd rest ih =>
    simp only [validateFieldsFrom] at hok
    cases hstep : stepField fd raw with
    | error e => rw [hstep] at hok; cases hok
    | ok v =>
      rw [hstep] at hok
      rcases ih _ hok with h | h
      · exact Or.inl (by simp only [List.map_cons, List.mem_cons]; exact Or.inr h)
      · by_cases hkfd : k = fd.id
        · exact Or.inl (by simp only [List.map_cons, List.mem_cons]; exact Or.inl hkfd)
        · simp only [if_neg hkfd] at h
          exact Or.inr h

lemma stepField_congr (fd : SpaceField) (raw raw' : List (String × String))
    (h : dictGet raw fd.id = dictGet raw' fd.id) :
    stepField fd raw = stepField fd raw' := by
  unfold stepField
  rw [h]

lemma validateFieldsFrom_congr (l : List SpaceField) (raw raw' : List (String × String))
    (h : ∀ f ∈ l, dictGet raw f.id = dictGet raw' f.id)
    (acc : String → Option FieldValue) :
    validateFieldsFrom l raw acc = validateFieldsFrom l raw' acc := by
  induction l generalizing acc with
  | nil => rfl
  | cons fd rest ih =>
    simp only [validateFieldsFrom]
    rw [stepField_congr fd raw raw' (h fd (List.mem_cons_self ..))]
    cases hstep : stepField fd raw' with
    | error e => rfl
    | ok v => exact ih (fun f hf => h f (List.mem_cons_of_mem _ hf)) _

lemma validateFields_congr (l : List SpaceField) (raw raw' : List (String × String))
    (h : ∀ f ∈ l, dictGet raw f.id = dictGet raw' f.id) :
    validateFields l raw = validateFields l raw' :=
  validateFieldsFrom_congr l raw raw' h _

/-- C6: raw-input keys outside the space schema are silently dropped: a
successfully created note's validated fields mapping holds no key outside
the schema's field ids, and the outcome of `create_note` (state and
result alike) depends only on the raw values at the schema's field ids —
extra keys neither surface in the stored record nor raise an error. -/
theorem spec_C6_schema_is_authoritative :
    (∀ (st : AppState) (slug author : String) (raw : List (String × String)) (now : Nat)
        (space : Space) (note : Note),
        st.spaces slug = some space →
        (create_note st slug author raw now).2 = .ok note →
        ∀ k, (note.fields k).isSome = true → k ∈ space.fields.map SpaceField.id)
    ∧ (∀ (st : AppState) (slug author : String) (raw raw' : List (String × String)) (now : Nat)
        (space : Space),
        st.spaces slug = some space →
        (∀ f ∈ space.fields, dictGet raw f.id = dictGet raw' f.id) →
        create_note st slug author raw now = create_note st slug author raw' now) := by
  constructor
  · intro st slug author raw now space note hsp hok k hk
    cases hval : validateFields space.fields raw with
    | error e =>
      rw [create_note_error_result st slug author raw now space e hsp hval] at hok
      cases hok
    | ok vf =>
      rw [create_note_ok_result st slug author raw now space vf hsp hval] at hok
      cases hok
      rcases validateFieldsFrom_keys space.fields raw _ vf hval k hk with h | h
      · exact h
      · simp at h
  · intro st slug author raw raw' now space hsp hcong
    unfold create_note get_space
    rw [hsp]
    dsimp only
    rw [validateFields_congr space.fields raw raw' hcong]

/-- A space with a single optional string field `a`, for the C6 witness. -/
def c6Space : Space :=
  { slug := "proj", title := "Project", fields := [{ id := "a", type := .string }] }

/-- An application state caching `c6Space`. -/
def c6State : AppState :=
  { spaces := fun k => if k = "proj" then some c6Space else Option.none,
    counters := initCounters, notes := [], comments := [] }

/-- Witness for C6: adding the extra raw key `junk` (absent from the
schema) changes nothing about the call's outcome. -/
theorem spec_C6_witness :
    create_note c6State "proj" "admin" [("a", "1"), ("junk", "x")] 0
      = create_note c6State "proj" "admin" [("a", "1")] 0 := by
  exact spec_C6_schema_is_authoritative.2 c6State "proj" "admin"
    [("a", "1"), ("junk", "x")] [("a", "1")] 0 c6Space rfl (by decide)

/-! ## Listing and pagination (C7) -/

lemma insertBy_perm {α : Type} (le : α → α → Bool) (a : α) (l : List α) :
    (insertBy le a l).Perm (a :: l) := by
  induction l with
  | nil => exact List.Perm.refl _
  | cons b bs ih =>
    unfold insertBy
    by_cases h : le a b
    · rw [if_pos h]
    · rw [if_neg h]
      exact List.Perm.trans (List.Perm.cons b ih) (List.Perm.swap a b bs)

lemma sortBy_perm {α : Type} (le : α → α → Bool) (l : List α) : (sortBy le l).Perm l := by
  induction l with
  | nil => exact List.Perm.refl _
  | cons a rest ih =>
    exact List.Perm.trans (insertBy_perm ..) (List.Perm.cons a ih)

lemma insertBy_pairwise {α : Type} (le : α → α → Bool)
    (htrans : ∀ a b c, le a b = true → le b c = true → le a c = true)
    (htot : ∀ a b, le a b = true ∨ le b a = true)
    (a : α) (l : List α) (hl : l.Pairwise (fun x y => le x y = true)) :
    (insertBy le a l).Pairwise (fun x y => le x y = true) := by
  induction l with
  | nil => simp [insertBy]
  | cons b bs ih =>
    cases hl with
    | cons hb hbs =>
      unfold insertBy
      by_cases h : le a b = true
      · rw [if_pos h]
        refine List.Pairwise.cons ?_ (List.Pairwise.cons hb hbs)
        intro y hy
        rcases List.mem_cons.mp hy with rfl | hy'
        · exact h
        · exact htrans a b y h (hb y hy')
      · rw [if_neg h]
        have hba : le b a = true := (htot a b).resolve_left h
        refine List.Pairwise.cons ?_ (ih hbs)
        intro y hy
        rcases List.mem_cons.mp ((insertBy_perm le a bs).mem_iff.mp hy) with rfl | hy'
        · exact hba
        · exact hb y hy'

lemma sortBy_pairwise {α : Type} (le : α → α → Bool)
    (htrans : ∀ a b c, le a b = true → le b c = true → le a c = true)
    (htot : ∀ a b, le a b = true ∨ le b a = true)
    (l : List α) : (sortBy le l).Pairwise (fun x y => le x y = true) := by
  induction l with
  | nil => simp [sortBy]
  | cons a rest ih => exact insertBy_pairwise le htrans htot a (sortBy le rest) ih

lemma take_drop_sublist {α : Type} (l : List α) (n m : Nat) :
    ((l.drop n).take m).Sublist l :=
  List.Sublist.trans (List.take_sublist ..) (List.drop_sublist ..)

/-- Notes numbered 1..5 in the space `proj`, all with empty field maps. -/
def c7Note (k : Int) : Note :=
  { space_slug := "proj", number := k, author_username := "admin", created_at := 0,
    fields := fun _ => Option.none }

/-- A state whose notes collection holds notes 1..5 of space `proj` in
insertion order. -/
def fiveNoteState : AppState :=
  { spaces := fun _ => Option.none, counters := initCounters,
    notes := [c7Note 1, c7Note 2, c7Note 3, c7Note 4, c7Note 5], comments := [] }

/-- C7: listing is always paginated and echoes `limit` and `offset`;
`total` is the full count of records in the scope, independent of `limit`
and `offset`; note items come ordered by number descending and all belong
to the requested space; comment items come ordered by number ascending
and all belong to the requested note; and concretely, with notes 1..5 in
a space, `limit=2, offset=2` returns the notes numbered 3 and 2 in that
order with `total=5`. -/
theorem spec_C7_listing_pagination :
    (∀ (st : AppState) (slug : String) (limit offset : Nat),
        (list_notes st slug limit offset).total
            = (st.notes.filter (fun n => n.space_slug == slug)).length
        ∧ (list_notes st slug limit offset).limit = limit
        ∧ (list_notes st slug limit offset).offset = offset
        ∧ (∀ limit' offset', (list_notes st slug limit' offset').total
              = (list_notes st slug limit offset).total)
        ∧ (list_notes st slug limit offset).items.Pairwise (fun a b => b.number ≤ a.number)
        ∧ (∀ x ∈ (list_notes st slug limit offset).items, x.space_slug = slug))
    ∧ (∀ (st : AppState) (slug : String) (nn : Int) (limit offset : Nat),
        (list_comments st slug nn limit offset).total
            = (st.comments.filter
                (fun c => c.space_slug == slug && c.note_number == nn)).length
        ∧ (list_comments st slug nn limit offset).limit = limit
        ∧ (list_comments st slug nn limit offset).offset = offset
        ∧ (∀ limit' offset', (list_comments st slug nn limit' offset').total
              = (list_comments st slug nn limit offset).total)
        ∧ (list_comments st slug nn limit offset).items.Pairwise
            (fun a b => a.number ≤ b.number)
        ∧ (∀ x ∈ (list_comments st slug nn limit offset).items,
              x.space_slug = slug ∧ x.note_number = nn))
    ∧ ((list_notes fiveNoteState "proj" 2 2).items.map Note.number = [3, 2]
        ∧ (list_notes fiveNoteState "proj" 2 2).total = 5) := by
  refine ⟨?_, ?_, by decide, by decide⟩
  · intro st slug limit offset
    refine ⟨rfl, rfl, rfl, fun _ _ => rfl, ?_, ?_⟩
    · have hs := sortBy_pairwise (fun a b : Note => decide (b.number ≤ a.number))
        (fun a b c hab hbc => by
          simp only [decide_eq_true_eq] at *
          exact le_trans hbc hab)
        (fun a b => by
          rcases le_total b.number a.number with h | h
          · exact Or.inl (by simpa using h)
          · exact Or.inr (by simpa using h))
        (st.notes.filter (fun n => n.space_slug == slug))
      have := (hs.sublist (take_drop_sublist _ offset limit))
      exact this.imp (fun h => by simpa using h)
    · intro x hx
      have hx1 : x ∈ sortBy (fun a b : Note => decide (b.number ≤ a.number))
          (st.notes.filter (fun n => n.space_slug == slug)) :=
        (take_drop_sublist _ offset limit).subset hx
      have hx2 := (sortBy_perm _ _).mem_iff.mp hx1
      have := (List.mem_filter.mp hx2).2
      simpa using this
  · intro st slug nn limit offset
    refine ⟨rfl, rfl, rfl, fun _ _ => rfl, ?_, ?_⟩
    · have hs := sortBy_pairwise (fun a b : Comment => decide (a.number ≤ b.number))
        (fun a b c hab hbc => by
          simp only [decide_eq_true_eq] at *
          exact le_trans hab hbc)
        (fun a b => by
          rcases le_total a.number b.number with h | h
          · exact Or.inl (by simpa using h)
          · exact Or.inr (by simpa using h))
        (st.comments.filter (fun c => c.space_slug == slug && c.note_number == nn))
      have := (hs.sublist (take_drop_sublist _ offset limit))
      exact this.imp (fun h => by simpa using h)
    · intro x hx
      have hx1 : x ∈ sortBy (fun a b : Comment => decide (a.number ≤ b.number))
          (st.comments.filter (fun c => c.space_slug == slug && c.note_number == nn)) :=
        (take_drop_sublist _ offset limit).subset hx
      have hx2 := (sortBy_perm _ _).mem_iff.mp hx1
      have := (List.mem_filter.mp hx2).2
      simp only [Bool.and_eq_true, beq_iff_eq] at this
      exact this

/-- Witness for C7 at the concrete five-note state. -/
theorem spec_C7_witness :
    (list_notes fiveNoteState "proj" 2 2).total = 5
    ∧ (c7Note 3).space_slug = "proj" := by
  constructor
  · exact (spec_C7_listing_pagination.2.2).2
  · apply (spec_C7_listing_pagination.1 fiveNoteState "proj" 2 2).2.2.2.2.2 (c7Note 3)
    have : (list_notes fiveNoteState "proj" 2 2).items = [c7Note 3, c7Note 2] := rfl
    rw [this]
    exact List.mem_cons_self ..

/-! ## Comment creation requires an existing note (C8) -/

/-- C8: creating a comment whose `(space_slug, note_number)` identifies no
existing note fails with `NotFoundError` and has no side effect at all:
the returned state is exactly the input state, so the comment counter is
not touched and no comment record is inserted — the existence check runs
before the allocation and the insert. -/
theorem spec_C8_comment_requires_note
    (st : AppState) (slug : String) (n : Int) (author content : String) (now : Nat)
    (habs : find_note st.notes slug n = Option.none) :
    create_comment st slug n author content now
      = (st, .error (.notFound
          ("Note not found: space=" ++ slug ++ ", number=" ++ toString n))) := by
  unfold create_comment get_note
  rw [habs]

/-- A state with no spaces, notes or comments. -/
def emptyState : AppState :=
  { spaces := fun _ => Option.none, counters := initCounters, notes := [], comments := [] }

/-- Witness for C8: commenting on the nonexistent note 1 of space `proj`
in the empty state fails with `NotFoundError` and changes nothing. -/
theorem spec_C8_witness :
    create_comment emptyState "proj" 1 "admin" "hello" 0
      = (emptyState, .error (.notFound
          ("Note not found: space=" ++ "proj" ++ ", number=" ++ toString (1 : Int)))) :=
  spec_C8_comment_requires_note emptyState "proj" 1 "admin" "hello" 0 rfl

/-! ## User-cache index coherence (C9) -/

/-- Durable-storage well-formedness the unique indexes on `username` and
`token` enforce. -/
def DBValid (db : List User) : Prop :=
  (db.map (fun u => u.username)).Nodup ∧ (db.map (fun u => u.token)).Nodup

/-- Inductive invariant: both caches are exactly the indexings of the
durable collection, and the collection satisfies its unique indexes. -/
def UserSync (st : UserState) : Prop :=
  DBValid st.dbUsers
  ∧ (∀ k u, st.users k = some u ↔ (u ∈ st.dbUsers ∧ u.username = k))
  ∧ (∀ t u, st.usersByToken t = some u ↔ (u ∈ st.dbUsers ∧ u.token = t))

/-- The claimed coherence: the token index is exactly `{u.token ↦ u}` over
the users of the primary index — every cached user is reachable by its
token, and every token entry points back into the primary index. -/
def UserCacheCoherent (st : UserState) : Prop :=
  (∀ n u, st.users n = some u → u.username = n ∧ st.usersByToken u.token = some u)
  ∧ (∀ t u, st.usersByToken t = some u → u.token = t ∧ st.users u.username = some u)

lemma indexBy_append (key : User → String) (db : List User) (u : User) :
    indexBy key (db ++ [u]) = fun k => if k = key u then some u else indexBy key db k := by
  unfold indexBy
  rw [List.foldl_append]
  rfl

lemma indexBy_mem (key : User → String) (db : List User)
    (hnd : (db.map key).Nodup) (k : String) (u : User) :
    indexBy key db k = some u ↔ (u ∈ db ∧ key u = k) := by
  induction db using List.reverseRecOn with
  | nil => simp [indexBy]
  | append_singleton db v ih =>
    rw [List.map_append] at hnd
    obtain ⟨hnd', _, hdisj⟩ := List.nodup_append.mp hnd
    have hvnot : key v ∉ db.map key := by
      intro hmem
      exact hdisj hmem (by simp)
    have hred : indexBy key (db ++ [v]) k
        = if k = key v then some v else indexBy key db k := by
      rw [indexBy_append]
    rw [hred]
    by_cases hk : k = key v
    · rw [if_pos hk]
      constructor
      · intro h
        cases h
        exact ⟨by simp, hk.symm⟩
      · rintro ⟨hm, hku⟩
        rcases List.mem_append.mp hm with h | h
        · exact absurd (List.mem_map_of_mem key h)
            (by rw [hku, hk]; exact hvnot)
        · simp only [List.mem_singleton] at h
          rw [h]
    · rw [if_neg hk, ih hnd']
      constructor
      · rintro ⟨hm, hku⟩
        exact ⟨List.mem_append.mpr (Or.inl hm), hku⟩
      · rintro ⟨hm, hku⟩
        rcases List.mem_append.mp hm with h | h
        · exact ⟨h, hku⟩
        · simp only [List.mem_singleton] at h
          subst h
          exact absurd hku.symm hk

lemma dbDeleteUser_sublist (db : List User) (n : String) :
    (dbDeleteUser db n).Sublist db := by
  induction db with
  | nil => simp [dbDeleteUser]
  | cons u rest ih =>
    unfold dbDeleteUser
    by_cases h : u.username = n
    · rw [if_pos h]
      exact List.sublist_cons_self u rest
    · rw [if_neg h]
      exact List.Sublist.cons₂ u ih

lemma dbDeleteUser_mem (db : List User) (n : String)
    (hnd : (db.map (fun u => u.username)).Nodup) (v : User) :
    v ∈ dbDeleteUser db n ↔ (v ∈ db ∧ v.username ≠ n) := by
  induction db with
  | nil => simp [dbDeleteUser]
  | cons u rest ih =>
    rw [List.map_cons, List.nodup_cons] at hnd
    unfold dbDeleteUser
    by_cases h : u.username = n
    · rw [if_pos h]
      constructor
      · intro hv
        refine ⟨List.mem_cons_of_mem _ hv, ?_⟩
        intro hvn
        apply hnd.1
        rw [h, ← hvn]
        exact List.mem_map_of_mem (fun u => u.username) hv
      · rintro ⟨hm, hvn⟩
        rcases List.mem_cons.mp hm with rfl | hr
        · exact absurd h hvn
        · exact hr
    · rw [if_neg h]
      constructor
      · intro hv
        rcases List.mem_cons.mp hv with rfl | hr
        · exact ⟨List.mem_cons_self .., fun hh => h hh⟩
        · obtain ⟨hm, hvn⟩ := (ih hnd.2).mp hr
          exact ⟨List.mem_cons_of_mem _ hm, hvn⟩
      · rintro ⟨hm, hvn⟩
        rcases List.mem_cons.mp hm with rfl | hr
        · exact List.mem_cons_self ..
        · exact List.mem_cons_of_mem _ ((ih hnd.2).mpr ⟨hr, hvn⟩)

lemma nodup_map_inj {f : User → String} {db : List User}
    (hnd : (db.map f).Nodup) {a b : User} (ha : a ∈ db) (hb : b ∈ db)
    (hf : f a = f b) : a = b :=
  List.inj_on_of_nodup_map hnd ha hb hf

lemma userSync_init : UserSync initUserState := by
  refine ⟨⟨List.nodup_nil, List.nodup_nil⟩, ?_, ?_⟩ <;>
    intro k u <;> simp [initUserState]

lemma userSync_create (st : UserState) (username token : String) (dbOk : Bool)
    (h : UserSync st) : UserSync (create_user st username token dbOk).1 := by
  obtain ⟨⟨hndn, hndt⟩, hu, ht⟩ := h
  unfold create_user
  split
  · exact ⟨⟨hndn, hndt⟩, hu, ht⟩
  · dsimp only
    split
    · next hok =>
      have hins : dbInsertUserOk st.dbUsers ⟨username, token⟩ = true :=
        (Bool.and_eq_true ..).mp hok |>.2
      unfold dbInsertUserOk at hins
      rw [List.all_eq_true] at hins
      have hfresh : ∀ v ∈ st.dbUsers, v.username ≠ username ∧ v.token ≠ token := by
        intro v hv
        have := hins v hv
        rw [Bool.and_eq_true, bne_iff_ne, bne_iff_ne] at this
        exact this
      refine ⟨⟨?_, ?_⟩, ?_, ?_⟩
      · rw [List.map_append]
        simp only [List.map_singleton]
        refine List.Nodup.append hndn (List.nodup_singleton _) ?_
        rw [List.disjoint_singleton]
        intro hmem
        obtain ⟨v, hv, hveq⟩ := List.mem_map.mp hmem
        exact (hfresh v hv).1 hveq
      · rw [List.map_append]
        simp only [List.map_singleton]
        refine List.Nodup.append hndt (List.nodup_singleton _) ?_
        rw [List.disjoint_singleton]
        intro hmem
        obtain ⟨v, hv, hveq⟩ := List.mem_map.mp hmem
        exact (hfresh v hv).2 hveq
      · intro k u
        dsimp only
        by_cases hk : k = username
        · subst hk
          rw [if_pos rfl]
          constructor
          · intro hh
            cases hh
            exact ⟨List.mem_append.mpr (Or.inr (by simp)), rfl⟩
          · rintro ⟨hm, hku⟩
            rcases List.mem_append.mp hm with hmem | hmem
            · exact absurd hku ((hfresh u hmem).1)
            · simp only [List.mem_singleton] at hmem
              rw [hmem]
        · rw [if_neg hk, hu k u]
          constructor
          · rintro ⟨hm, hku⟩
            exact ⟨List.mem_append.mpr (Or.inl hm), hku⟩
          · rintro ⟨hm, hku⟩
            rcases List.mem_append.mp hm with hmem | hmem
            · exact ⟨hmem, hku⟩
            · simp only [List.mem_singleton] at hmem
              subst hmem
              exact absurd hku.symm hk
      · intro t u
        dsimp only
        by_cases htk : t = token
        · subst htk
          rw [if_pos rfl]
          constructor
          · intro hh
            cases hh
            exact ⟨List.mem_append.mpr (Or.inr (by simp)), rfl⟩
          · rintro ⟨hm, hku⟩
            rcases List.mem_append.mp hm with hmem | hmem
            · exact absurd hku ((hfresh u hmem).2)
            · simp only [List.mem_singleton] at hmem
              rw [hmem]
        · rw [if_neg htk, ht t u]
          constructor
          · rintro ⟨hm, hku⟩
            exact ⟨List.mem_append.mpr (Or.inl hm), hku⟩
          · rintro ⟨hm, hku⟩
            rcases List.mem_append.mp hm with hmem | hmem
            · exact ⟨hmem, hku⟩
            · simp only [List.mem_singleton] at hmem
              subst hmem
              exact absurd hku.symm htk
    · exact ⟨⟨hndn, hndt⟩, hu, ht⟩

lemma userSync_delete (st : UserState) (username : String) (dbOk : Bool)
    (h : UserSync st) : UserSync (delete_user st username dbOk).1 := by
  obtain ⟨⟨hndn, hndt⟩, hu, ht⟩ := h
  unfold delete_user
  cases hc : st.users username with
  | none => exact ⟨⟨hndn, hndt⟩, hu, ht⟩
  | some user =>
    dsimp only
    split
    · obtain ⟨huser_mem, huser_name⟩ := (hu username user).mp hc
      refine ⟨⟨?_, ?_⟩, ?_, ?_⟩
      · exact List.Nodup.sublist
          (List.Sublist.map _ (dbDeleteUser_sublist st.dbUsers username)) hndn
      · exact List.Nodup.sublist
          (List.Sublist.map _ (dbDeleteUser_sublist st.dbUsers username)) hndt
      · intro k u
        dsimp only
        by_cases hk : k = username
        · subst hk
          rw [if_pos rfl]
          constructor
          · intro hh; cases hh
          · rintro ⟨hm, hku⟩
            obtain ⟨_, hne⟩ := (dbDeleteUser_mem _ _ hndn u).mp hm
            exact absurd hku hne
        · rw [if_neg hk, hu k u]
          constructor
          · rintro ⟨hm, hku⟩
            refine ⟨(dbDeleteUser_mem _ _ hndn u).mpr ⟨hm, ?_⟩, hku⟩
            rw [hku]
            exact hk
          · rintro ⟨hm, hku⟩
            obtain ⟨hmem, _⟩ := (dbDeleteUser_mem _ _ hndn u).mp hm
            exact ⟨hmem, hku⟩
      · intro t u
        dsimp only
        by_cases htk : t = user.token
        · subst htk
          rw [if_pos rfl]
          constructor
          · intro hh; cases hh
          · rintro ⟨hm, hku⟩
            obtain ⟨hmem, hne⟩ := (dbDeleteUser_mem _ _ hndn u).mp hm
            have : u = user := nodup_map_inj hndt hmem huser_mem hku
            subst this
            exact (hne huser_name).elim
        · rw [if_neg htk, ht t u]
          constructor
          · rintro ⟨hm, hku⟩
            refine ⟨(dbDeleteUser_mem _ _ hndn u).mpr ⟨hm, ?_⟩, hku⟩
            intro hun
            have : u = user := nodup_map_inj hndn hm huser_mem (hun.trans huser_name.symm)
            subst this
            exact htk hku.symm
          · rintro ⟨hm, hku⟩
            obtain ⟨hmem, _⟩ := (dbDeleteUser_mem _ _ hndn u).mp hm
            exact ⟨hmem, hku⟩
    · exact ⟨⟨hndn, hndt⟩, hu, ht⟩

lemma userSync_reload (st : UserState) (dbOk : Bool)
    (h : UserSync st) : UserSync (update_all_users_cache st dbOk).1 := by
  obtain ⟨⟨hndn, hndt⟩, hu, ht⟩ := h
  unfold update_all_users_cache
  split
  · exact ⟨⟨hndn, hndt⟩, fun k u => indexBy_mem _ _ hndn k u,
      fun t u => indexBy_mem _ _ hndt t u⟩
  · exact ⟨⟨hndn, hndt⟩, hu, ht⟩

lemma reachable_userSync (st : UserState) (h : ReachableUser st) : UserSync st := by
  induction h with
  | init => exact userSync_init
  | create st' username token dbOk _ ih => exact userSync_create st' username token dbOk ih
  | delete st' username dbOk _ ih => exact userSync_delete st' username dbOk ih
  | reload st' dbOk _ ih => exact userSync_reload st' dbOk ih

/-- C9: in every user-service state reachable by any sequence of
`create_user`, `delete_user` and full cache reloads (durable storage
enforcing the unique username and token indexes, so duplicate inserts
fail before the cache is touched), the token-keyed index is exactly
`{u.token ↦ u}` over the username-keyed index: every cached user is
reachable by its token, and every token entry points to a user of the
primary index under its own username. -/
theorem spec_C9_token_index_coherence (st : UserState) (h : ReachableUser st) :
    UserCacheCoherent st := by
  obtain ⟨_, hu, ht⟩ := reachable_userSync st h
  constructor
  · intro n u hn
    obtain ⟨hm, hun⟩ := (hu n u).mp hn
    exact ⟨hun, (ht u.token u).mpr ⟨hm, rfl⟩⟩
  · intro t u htk
    obtain ⟨hm, hut⟩ := (ht t u).mp htk
    exact ⟨hut, (hu u.username u).mpr ⟨hm, rfl⟩⟩

/-- Witness for C9: the state after bootstrapping the admin user on a
fresh service is coherent. -/
theorem spec_C9_witness :
    UserCacheCoherent ((create_user initUserState "admin" "admin" true).1) :=
  spec_C9_token_index_coherence _
    (ReachableUser.create initUserState "admin" "admin" true ReachableUser.init)

/-! ## Empty string under the required check (C10) -/

/-- C10: the required check tests only absence of the key, never
emptiness of the value — a required field whose raw value is the empty
string passes that check, and then the empty string is stored as-is for
the text-like types (`string`, `select`, `user`, `image`), coerces to the
empty list for `tags`, and fails with the parse validation error (not the
missing-field error) for `int` and `float`. -/
theorem spec_C10_empty_string_required
    (fd : SpaceField) (raw : List (String × String))
    (hreq : fd.required = true)
    (hget : dictGet raw fd.id = some "") :
    ((fd.type = FieldType.string ∨ fd.type = FieldType.select
        ∨ fd.type = FieldType.user ∨ fd.type = FieldType.image) →
        stepField fd raw = .ok (FieldValue.str ""))
    ∧ (fd.type = FieldType.tags → stepField fd raw = .ok (FieldValue.list []))
    ∧ (fd.type = FieldType.int →
        stepField fd raw = .error (.validationError
          ("Field '" ++ fd.id ++ "' must be an integer, got ''")))
    ∧ (fd.type = FieldType.float →
        stepField fd raw = .error (.validationError
          ("Field '" ++ fd.id ++ "' must be a float, got ''"))) := by
  have htags : coerceTags "" = [] := by decide
  have hint : pyParseInt "" = Option.none := by decide
  have hfl : pyFloatAccepts "" = false := by decide
  refine ⟨?_, ?_, ?_, ?_⟩
  · intro hty
    rcases hty with h | h | h | h <;> simp [stepField, hget, h]
  · intro h
    simp [stepField, hget, h, htags]
  · intro h
    simp only [stepField, hget, h, hint]
    refine congrArg Except.error (congrArg Err.validationError ?_)
    rw [String.append_empty, String.append_assoc, String.append_assoc]
    exact congrArg ("Field '" ++ fd.id ++ ·) (by decide)
  · intro h
    simp only [stepField, hget, h, hfl, if_false, Bool.false_eq_true]
    refine congrArg Except.error (congrArg Err.validationError ?_)
    rw [String.append_empty, String.append_assoc, String.append_assoc]
    exact congrArg ("Field '" ++ fd.id ++ ·) (by decide)

/-- A required string field, for the C10 witness. -/
def c10Str : SpaceField := { id := "s", type := .string, required := true }

/-- A required tag-list field, for the C10 witness. -/
def c10Tags : SpaceField := { id := "g", type := .tags, required := true }

/-- A required integer field, for the C10 witness. -/
def c10Int : SpaceField := { id := "i", type := .int, required := true }

/-- A required float field, for the C10 witness. -/
def c10Float : SpaceField := { id := "f", type := .float, required := true }

/-- Witness for C10 at concrete required fields fed the empty string. -/
theorem spec_C10_witness :
    stepField c10Str [("s", "")] = .ok (FieldValue.str "")
    ∧ stepField c10Tags [("g", "")] = .ok (FieldValue.list [])
    ∧ stepField c10Int [("i", "")]
        = .error (.validationError "Field 'i' must be an integer, got ''")
    ∧ stepField c10Float [("f", "")]
        = .error (.validationError "Field 'f' must be a float, got ''") := by
  refine ⟨?_, ?_, ?_, ?_⟩
  · exact (spec_C10_empty_string_required c10Str [("s", "")] rfl rfl).1 (Or.inl rfl)
  · exact (spec_C10_empty_string_required c10Tags [("g", "")] rfl rfl).2.1 rfl
  · exact (spec_C10_empty_string_required c10Int [("i", "")] rfl rfl).2.2.1 rfl
  · exact (spec_C10_empty_string_required c10Float [("f", "")] rfl rfl).2.2.2 rfl

end Spacenote
